import Mathlib

/-!
Verification of the pda-grinder repository (src/bin/all.rs and src/bin/fixed.rs)
against its natural-language specification.

Bytes are modelled as `Nat` (with explicit `% 256` where the code truncates),
64-bit integers as `Nat` with explicit `% 2^64` where wrapping matters, byte
buffers as `List Nat`, and fallible writes as `Except`.  The external
dependencies (the sha2 crate's SHA-256, the five8 base-58 encoder and the
platform derivation of solana_pubkey) are modelled from the spec, faithfully
to the published standards the spec names; the ed25519 on-curve test is kept
as an arbitrary boolean predicate parameter, since the spec specifies it only
by its role.
-/

/-! ## SHA-256 (modelled from the spec) -/

def M32 : Nat := 4294967296

def rotr32 (n x : Nat) : Nat := ((x >>> n) ||| (x <<< (32 - n))) % M32

def shaCh (x y z : Nat) : Nat := (x &&& y) ^^^ ((x ^^^ (M32 - 1)) &&& z)

def shaMaj (x y z : Nat) : Nat := (x &&& y) ^^^ (x &&& z) ^^^ (y &&& z)

def shaBigS0 (x : Nat) : Nat := rotr32 2 x ^^^ rotr32 13 x ^^^ rotr32 22 x

def shaBigS1 (x : Nat) : Nat := rotr32 6 x ^^^ rotr32 11 x ^^^ rotr32 25 x

def shaSmallS0 (x : Nat) : Nat := rotr32 7 x ^^^ rotr32 18 x ^^^ (x >>> 3)

def shaSmallS1 (x : Nat) : Nat := rotr32 17 x ^^^ rotr32 19 x ^^^ (x >>> 10)

def shaK : List Nat :=
  [1116352408, 1899447441, 3049323471, 3921009573, 961987163,
   1508970993, 2453635748, 2870763221, 3624381080, 310598401,
   607225278, 1426881987, 1925078388, 2162078206, 2614888103,
   3248222580, 3835390401, 4022224774, 264347078, 604807628,
   770255983, 1249150122, 1555081692, 1996064986, 2554220882,
   2821834349, 2952996808, 3210313671, 3336571891, 3584528711,
   113926993, 338241895, 666307205, 773529912, 1294757372,
   1396182291, 1695183700, 1986661051, 2177026350, 2456956037,
   2730485921, 2820302411, 3259730800, 3345764771, 3516065817,
   3600352804, 4094571909, 275423344, 430227734, 506948616,
   659060556, 883997877, 958139571, 1322822218, 1537002063,
   1747873779, 1955562222, 2024104815, 2227730452, 2361852424,
   2428436474, 2756734187, 3204031479, 3329325298]

def shaH0 : List Nat :=
  [1779033703, 3144134277, 1013904242, 2773480762,
   1359893119, 2600822924, 528734635, 1541459225]

/-- Big-endian 8-byte rendering of the 64-bit message bit length. -/
def be64 (n : Nat) : List Nat :=
  [n / 256 ^ 7 % 256, n / 256 ^ 6 % 256, n / 256 ^ 5 % 256, n / 256 ^ 4 % 256,
   n / 256 ^ 3 % 256, n / 256 ^ 2 % 256, n / 256 % 256, n % 256]

/-- Big-endian 4-byte rendering of a 32-bit word. -/
def be32 (w : Nat) : List Nat := [w / 256 ^ 3 % 256, w / 256 ^ 2 % 256, w / 256 % 256, w % 256]

/-- FIPS 180-4 padding: a 0x80 byte, zeros to 56 mod 64, then the bit length. -/
def padMessage (msg : List Nat) : List Nat :=
  msg ++ [0x80] ++ List.replicate ((119 - msg.length % 64) % 64) 0 ++ be64 (8 * msg.length)

/-- Group bytes into big-endian 32-bit words, four bytes at a time. -/
def bytesToWords : List Nat → List Nat
  | b0 :: b1 :: b2 :: b3 :: rest => (((b0 * 256 + b1) * 256 + b2) * 256 + b3) :: bytesToWords rest
  | _ => []

/-- Extend the 16 block words to the 64-word message schedule. -/
def extendWords (ws : List Nat) : Nat → List Nat
  | 0 => ws
  | n + 1 =>
    let k := ws.length
    let w := (shaSmallS1 (ws.getD (k - 2) 0) + ws.getD (k - 7) 0 +
              shaSmallS0 (ws.getD (k - 15) 0) + ws.getD (k - 16) 0) % M32
    extendWords (ws ++ [w]) n

def shaRound (st : Nat × Nat × Nat × Nat × Nat × Nat × Nat × Nat) (kw : Nat × Nat) :
    Nat × Nat × Nat × Nat × Nat × Nat × Nat × Nat :=
  let (a, b, c, d, e, f, g, h) := st
  let t1 := (h + shaBigS1 e + shaCh e f g + kw.1 + kw.2) % M32
  let t2 := (shaBigS0 a + shaMaj a b c) % M32
  ((t1 + t2) % M32, a, b, c, (d + t1) % M32, e, f, g)

def compressBlock (H : List Nat) (block : List Nat) : List Nat :=
  let ws := extendWords (bytesToWords block) 48
  let init := (H.getD 0 0, H.getD 1 0, H.getD 2 0, H.getD 3 0,
               H.getD 4 0, H.getD 5 0, H.getD 6 0, H.getD 7 0)
  let (a, b, c, d, e, f, g, h) := (shaK.zip ws).foldl shaRound init
  [(H.getD 0 0 + a) % M32, (H.getD 1 0 + b) % M32, (H.getD 2 0 + c) % M32,
   (H.getD 3 0 + d) % M32, (H.getD 4 0 + e) % M32, (H.getD 5 0 + f) % M32,
   (H.getD 6 0 + g) % M32, (H.getD 7 0 + h) % M32]

/-- Split into 64-byte blocks (fuel-based so it reduces in the kernel). -/
def chunks64F : Nat → List Nat → List (List Nat)
  | 0, _ => []
  | _, [] => []
  | fuel + 1, l => l.take 64 :: chunks64F fuel (l.drop 64)

def chunks64 (l : List Nat) : List (List Nat) := chunks64F l.length l

/-- Modelled from the spec: the fixed, standard 256-bit cryptographic hash of the
candidate generator (the sha2 crate, external to src/): FIPS 180-4 SHA-256 over a
byte string, producing 32 bytes. -/
def sha256 (msg : List Nat) : List Nat :=
  (((chunks64 (padMessage msg)).foldl compressBlock shaH0).map be32).flatten

/-! ## The preimage buffer (src/bin/all.rs lines 88-123, src/bin/fixed.rs lines 107-143) -/

/-- The 21-byte domain separation marker, `b"ProgramDerivedAddress"`. -/
def PDA_MARKER : List Nat :=
  [80, 114, 111, 103, 114, 97, 109, 68, 101, 114, 105, 118, 101, 100, 65, 100, 100, 114, 101, 115, 115]

/-- Little-endian 8-byte rendering of a 64-bit seed (`u64` stored at offset 0). -/
def u64le (s : Nat) : List Nat :=
  [s % 256, s / 256 % 256, s / 256 ^ 2 % 256, s / 256 ^ 3 % 256,
   s / 256 ^ 4 % 256, s / 256 ^ 5 % 256, s / 256 ^ 6 % 256, s / 256 ^ 7 % 256]

/-- An in-place write of `data` into `buf` at byte offset `off`. -/
def write_at (buf : List Nat) (off : Nat) (data : List Nat) : List Nat :=
  buf.take off ++ data ++ buf.drop (off + data.length)

/-- The 64-byte (`[0u64; 8]`) zeroed buffer after the one-time writes of the
owner key at offset 9 and the marker at offset 41. -/
def init_buffer (owner : List Nat) : List Nat :=
  write_at (write_at (List.replicate 64 0) 9 owner) 41 PDA_MARKER

/-- `set_seed`: write the 8 little-endian seed bytes at offset 0. -/
def set_seed (buf : List Nat) (s : Nat) : List Nat := write_at buf 0 (u64le s)

/-- `set_bump`: write the single byte `u8::MAX - offset` at offset 8. -/
def set_bump (buf : List Nat) (o : Nat) : List Nat := write_at buf 8 [255 - o]

/-- `get_preimage`: the 62-byte read window over the buffer. -/
def get_preimage (buf : List Nat) : List Nat := buf.take 62

/-- The 62-byte preimage the worker hashes for owner, seed and bump offset `o`. -/
def candidate_preimage (owner : List Nat) (s o : Nat) : List Nat :=
  get_preimage (set_bump (set_seed (init_buffer owner) s) o)

/-- The candidate address: SHA-256 of the buffer view. -/
def candidateDigest (owner : List Nat) (s o : Nat) : List Nat :=
  sha256 (candidate_preimage owner s o)

/-! ## Base-58 encoding and target matching -/

/-- The 58-character alphabet of the platform encoding, as ASCII bytes. -/
def b58Alphabet : List Nat :=
  [49, 50, 51, 52, 53, 54, 55, 56, 57,
   65, 66, 67, 68, 69, 70, 71, 72, 74, 75, 76, 77, 78,
   80, 81, 82, 83, 84, 85, 86, 87, 88, 89, 90,
   97, 98, 99, 100, 101, 102, 103, 104, 105, 106, 107, 109,
   110, 111, 112, 113, 114, 115, 116, 117, 118, 119, 120, 121, 122]

def b58Char (d : Nat) : Nat := b58Alphabet.getD d 49

/-- Little-endian base-58 digits of `n` (fuel-based so it reduces in the kernel). -/
def b58DigitsF : Nat → Nat → List Nat
  | 0, _ => []
  | _, 0 => []
  | fuel + 1, n + 1 => ((n + 1) % 58) :: b58DigitsF fuel ((n + 1) / 58)

def b58Digits (n : Nat) : List Nat := b58DigitsF n n

/-- The big-endian value of a byte string. -/
def beValue (bytes : List Nat) : Nat := bytes.foldl (fun acc b => acc * 256 + b) 0

/-- Count of leading zero bytes. -/
def leadZeroCount (bytes : List Nat) : Nat := (bytes.takeWhile (fun b => b == 0)).length

/-- Modelled from the spec: the base-58 encoder `five8::encode_32` (external to
src/): one alphabet character 1 per leading zero byte, then the big-endian
base-58 digits of the value, at most 44 characters for 32 input bytes. -/
def encode_32 (bytes : List Nat) : List Nat :=
  List.replicate (leadZeroCount bytes) 49 ++ (b58Digits (beValue bytes)).reverse.map b58Char

/-- `text.starts_with(&target)`: exact byte comparison, no validation of the target. -/
def matchesTarget (text tgt : List Nat) : Bool := tgt.isPrefixOf text

/-! ## The canonical bump scan (src/bin/all.rs lines 139-172) -/

/-- The bump loop: starting at offset `k` with `fuel` offsets left, test each
offset in order and stop at the first one `offC` accepts.  Returns the list of
offsets actually evaluated together with the found offset, mirroring
`for bump_offset in 0..u8::MAX { ...; if is_off_curve { ...; break } }`. -/
def scanFrom (offC : Nat → Bool) : Nat → Nat → List Nat × Option Nat
  | _, 0 => ([], none)
  | k, fuel + 1 =>
    if offC k then ([k], some k)
    else
      let r := scanFrom offC (k + 1) fuel
      (k :: r.1, r.2)

/-- The per-seed canonical scan over bump offsets 0..254. -/
def canonicalScan (onCurve : List Nat → Bool) (owner : List Nat) (s : Nat) :
    List Nat × Option Nat :=
  scanFrom (fun o => !onCurve (candidateDigest owner s o)) 0 255

/-- The canonical digest of a seed: the digest at the first off-curve offset, if any. -/
def canonicalDigest (onCurve : List Nat → Bool) (owner : List Nat) (s : Nat) :
    Option (List Nat) :=
  ((canonicalScan onCurve owner s).2).map (candidateDigest owner s)

/-- One seed of the print-only worker: find the canonical digest, then report it
iff its encoding starts with the target. -/
def allSeedStep (onCurve : List Nat → Bool) (tgt owner : List Nat) (s : Nat) :
    Option (List Nat) :=
  match (canonicalScan onCurve owner s).2 with
  | none => none
  | some o =>
    let d := candidateDigest owner s o
    if matchesTarget (encode_32 d) tgt then some d else none

/-- A batch of seeds of the print-only worker, collecting reported matches. -/
def grindBatch (onCurve : List Nat → Bool) (tgt owner : List Nat) : List Nat → List (Nat × List Nat)
  | [] => []
  | s :: rest =>
    (match allSeedStep onCurve tgt owner s with
     | some d => [(s, d)]
     | none => []) ++ grindBatch onCurve tgt owner rest

/-! ## The log-persisting worker (src/bin/fixed.rs lines 152-221) -/

def LOOK_AHEAD_WINDOW : Nat := 1

/-- The speculative candidates of one seed: for each offset below the window,
the digest and whether its encoding starts with the target. -/
def fixedCandidates (tgt owner : List Nat) (s : Nat) : List (List Nat × Bool) :=
  (List.range LOOK_AHEAD_WINDOW).map
    (fun o => (candidateDigest owner s o, matchesTarget (encode_32 (candidateDigest owner s o)) tgt))

/-- The confirmation loop over the speculative candidates: walk down the window,
testing each digest for off-curve-ness; at the first off-curve digest report it
iff it was a match, and stop.  Also counts the off-curve tests performed. -/
def confirmLoop (onCurve : List Nat → Bool) : List (List Nat × Bool) → Option (List Nat) × Nat
  | [] => (none, 0)
  | (d, m) :: rest =>
    if !onCurve d then ((if m then some d else none), 1)
    else
      let r := confirmLoop onCurve rest
      (r.1, r.2 + 1)

/-- One seed of the log-persisting worker: compute the windowed candidates, and
run the confirmation loop only when some speculative candidate matched. -/
def fixedSeedStep (onCurve : List Nat → Bool) (tgt owner : List Nat) (s : Nat) :
    Option (List Nat) × Nat :=
  if (fixedCandidates tgt owner s).any (fun c => c.2) then
    confirmLoop onCurve (fixedCandidates tgt owner s)
  else (none, 0)

/-! ## Seed-space partitioning (src/bin/fixed.rs line 105, src/bin/all.rs line 86) -/

def U64_MOD : Nat := 18446744073709551616

def U64_MAX : Nat := 18446744073709551615

/-- Worker start seed of the log-persisting binary:
`(u64::MAX / args.threads * i).wrapping_add(offset)`. -/
def startSeedFixed (threads i offset : Nat) : Nat :=
  (U64_MAX / threads * i % U64_MOD + offset) % U64_MOD

/-- Worker start seed of the print-only binary:
`(u64::MAX / 32 * i).wrapping_add(offset)`. -/
def startSeedAll (i offset : Nat) : Nat :=
  (U64_MAX / 32 * i % U64_MOD + offset) % U64_MOD

/-- The first seed a worker processes: its start seed after the leading `seed += 1`. -/
def firstSeed (start : Nat) : Nat := (start + 1) % U64_MOD

/-- Distance of two 64-bit values measured modulo wraparound. -/
def wrapDist (a b : Nat) : Nat :=
  min ((a + U64_MOD - b) % U64_MOD) ((b + U64_MOD - a) % U64_MOD)

/-! ## The durable log (src/bin/fixed.rs lines 84-96) -/

/-- Little-endian decimal digits of `n` (fuel-based so it reduces in the kernel). -/
def decDigitsF : Nat → Nat → List Nat
  | 0, _ => []
  | _, 0 => []
  | fuel + 1, n + 1 => ((n + 1) % 10) :: decDigitsF fuel ((n + 1) / 10)

/-- The decimal rendering of a `u64`, as ASCII bytes. -/
def decimalBytes (n : Nat) : List Nat :=
  if n = 0 then [48] else (decDigitsF n n).reverse.map (fun d => d + 48)

/-- The log line `writeln!` produces for one match: the base-58 address, a colon
and a space, the decimal seed, and the terminating newline. -/
def resultLine (key : List Nat) (s : Nat) : List Nat :=
  encode_32 key ++ [58, 32] ++ decimalBytes s ++ [10]

/-- `add_seed`: append one line to the log under the lock.  The file write can
fail; `unwrap` turns that into a panic, modelled as `Except.error` — no retry,
no buffering, the error propagates out of the worker. -/
def add_seed (writable : Bool) (log : List (List Nat)) (key : List Nat) (s : Nat) :
    Except Unit (List (List Nat)) :=
  if writable then Except.ok (log ++ [resultLine key s]) else Except.error ()

/-! ## The platform derivation (modelled from the spec, for the check command) -/

/-- The digest the platform derivation computes for one bump value. -/
def pdaDigest (owner : List Nat) (s b : Nat) : List Nat :=
  sha256 (u64le s ++ [b] ++ owner ++ PDA_MARKER)

/-- The bump values the platform derivation tries, 255 down to 1. -/
def descendingBumps : List Nat := (List.range 255).map (fun o => 255 - o)

/-- Modelled from the spec: `Pubkey::find_program_address(&[&seed.to_le_bytes()], &owner)`
(external to src/), the platform's address derivation the check command prints:
try bump values 255 down to 1, hash the seed bytes, the bump, the owner and the
marker, and return the first off-curve digest. -/
def find_program_address (onCurve : List Nat → Bool) (owner : List Nat) (s : Nat) :
    Option (List Nat) :=
  (descendingBumps.find? (fun b => !onCurve (pdaDigest owner s b))).map (pdaDigest owner s)

/-! ## Helper lemmas: the buffer layout -/

theorem layout_core (w owner : List Nat) (o : Nat) (hw : w.length = 8) (h : owner.length = 32) :
    get_preimage (set_bump (write_at (init_buffer owner) 0 w) o) =
      w ++ [255 - o] ++ owner ++ PDA_MARKER := by
  have htw : w.take 8 = w := List.take_of_length_le (by omega)
  have hdw : w.drop 8 = [] := List.drop_eq_nil_of_le (by omega)
  have htw62 : w.take 62 = w := List.take_of_length_le (by omega)
  have hdw9 : w.drop 9 = [] := List.drop_eq_nil_of_le (by omega)
  have ht32 : owner.take 32 = owner := List.take_of_length_le (by omega)
  have ht53 : owner.take 53 = owner := List.take_of_length_le (by omega)
  have hd32 : owner.drop 32 = [] := List.drop_eq_nil_of_le (by omega)
  have hp21 : PDA_MARKER.length = 21 := rfl
  have hpt : PDA_MARKER.take 21 = PDA_MARKER := rfl
  simp [get_preimage, set_bump, init_buffer, write_at,
        List.take_append_eq_append_take, List.drop_append_eq_append_drop,
        List.take_replicate, List.drop_replicate, hw, h, htw, hdw, htw62, hdw9,
        ht32, ht53, hd32, hp21, hpt]

theorem candidate_preimage_eq (owner : List Nat) (s o : Nat) (h : owner.length = 32) :
    candidate_preimage owner s o = u64le s ++ [255 - o] ++ owner ++ PDA_MARKER :=
  layout_core (u64le s) owner o rfl h

theorem candidate_preimage_len (owner : List Nat) (s o : Nat) (h : owner.length = 32) :
    (candidate_preimage owner s o).length = 62 := by
  rw [candidate_preimage_eq owner s o h]
  have h8 : (u64le s).length = 8 := rfl
  have h21 : PDA_MARKER.length = 21 := rfl
  simp [h8, h21, h]

/-! ## Helper lemmas: the bump scan -/

theorem scanFrom_succ (offC : Nat → Bool) (k fuel : Nat) :
    scanFrom offC k (fuel + 1) =
      if offC k then ([k], some k)
      else (k :: (scanFrom offC (k + 1) fuel).1, (scanFrom offC (k + 1) fuel).2) := rfl

theorem scanFrom_some (offC : Nat → Bool) :
    ∀ fuel k o, (scanFrom offC k fuel).2 = some o →
      k ≤ o ∧ o < k + fuel ∧ offC o = true ∧
      (∀ m, k ≤ m → m < o → offC m = false) ∧
      (scanFrom offC k fuel).1 = List.range' k (o + 1 - k) := by
  intro fuel
  induction fuel with
  | zero => intro k o hko; simp [scanFrom] at hko
  | succ n ih =>
    intro k o hko
    rw [scanFrom_succ] at hko ⊢
    by_cases hc : offC k
    · simp [hc] at hko ⊢
      subst hko
      refine ⟨le_refl _, by omega, hc, fun m h1 h2 => absurd (lt_of_le_of_lt h1 h2) (lt_irrefl _), ?_⟩
      simp [List.range'_succ]
    · simp [hc] at hko ⊢
      obtain ⟨h1, h2, h3, h4, h5⟩ := ih (k + 1) o hko
      refine ⟨by omega, by omega, h3, ?_, ?_⟩
      · intro m hm1 hm2
        rcases Nat.eq_or_lt_of_le hm1 with heq | hlt
        · subst heq; simpa using hc
        · exact h4 m hlt hm2
      · rw [h5]
        have : o + 1 - k = (o - k) + 1 := by omega
        rw [this, List.range'_succ]
        have : o + 1 - (k + 1) = o - k := by omega
        rw [this]

theorem scanFrom_none (offC : Nat → Bool) :
    ∀ fuel k, (scanFrom offC k fuel).2 = none →
      (scanFrom offC k fuel).1 = List.range' k fuel ∧
      (∀ m, k ≤ m → m < k + fuel → offC m = false) := by
  intro fuel
  induction fuel with
  | zero => intro k _; refine ⟨rfl, fun m h1 h2 => by omega⟩
  | succ n ih =>
    intro k hko
    rw [scanFrom_succ] at hko ⊢
    by_cases hc : offC k
    · simp [hc] at hko
    · simp [hc] at hko ⊢
      obtain ⟨h1, h2⟩ := ih (k + 1) hko
      refine ⟨?_, ?_⟩
      · rw [List.range'_succ, h1]
      · intro m hm1 hm2
        rcases Nat.eq_or_lt_of_le hm1 with heq | hlt
        · subst heq; simpa using hc
        · exact h2 m hlt (by omega)

theorem scanFrom_eq_find (offC : Nat → Bool) :
    ∀ fuel k, (scanFrom offC k fuel).2 = (List.range' k fuel).find? offC := by
  intro fuel
  induction fuel with
  | zero => intro k; rfl
  | succ n ih =>
    intro k
    rw [scanFrom_succ, List.range'_succ]
    by_cases hc : offC k
    · simp [hc, List.find?_cons_of_pos]
    · simp [hc, List.find?_cons_of_neg, ih (k + 1)]

/-! ## Helper lemmas: base-58 encoding bounds -/

theorem b58DigitsF_length_le : ∀ fuel n k, n ≤ fuel → n < 58 ^ k → (b58DigitsF fuel n).length ≤ k := by
  intro fuel
  induction fuel with
  | zero => intro n k _ _; simp [b58DigitsF]
  | succ f ih =>
    intro n k hnf hnk
    cases n with
    | zero => simp [b58DigitsF]
    | succ m =>
      cases k with
      | zero => simp at hnk
      | succ j =>
        have hrec : (m + 1) / 58 ≤ f := by
          have : (m + 1) / 58 < m + 1 := Nat.div_lt_self (by omega) (by omega)
          omega
        have hlt : (m + 1) / 58 < 58 ^ j := by
          apply Nat.div_lt_of_lt_mul
          rw [Nat.mul_comm]
          calc m + 1 < 58 ^ (j + 1) := hnk
            _ = 58 ^ j * 58 := by rw [Nat.pow_succ]
        have := ih ((m + 1) / 58) j hrec hlt
        simp only [b58DigitsF, List.length_cons]
        omega

theorem beValue_foldl_lt : ∀ (l : List Nat) (acc : Nat), (∀ b ∈ l, b < 256) →
    l.foldl (fun a b => a * 256 + b) acc < (acc + 1) * 256 ^ l.length := by
  intro l
  induction l with
  | nil => intro acc _; simp
  | cons b t ih =>
    intro acc hb
    have hbb : b < 256 := hb b (by simp)
    have ht : ∀ x ∈ t, x < 256 := fun x hx => hb x (by simp [hx])
    calc (b :: t).foldl (fun a b => a * 256 + b) acc
        = t.foldl (fun a b => a * 256 + b) (acc * 256 + b) := by simp [List.foldl]
      _ < (acc * 256 + b + 1) * 256 ^ t.length := ih (acc * 256 + b) ht
      _ ≤ ((acc + 1) * 256) * 256 ^ t.length := Nat.mul_le_mul_right _ (by omega)
      _ = (acc + 1) * 256 ^ (t.length + 1) := by rw [Nat.pow_succ]; ring
      _ = (acc + 1) * 256 ^ (b :: t).length := by simp

theorem beValue_lt (l : List Nat) (hb : ∀ b ∈ l, b < 256) : beValue l < 256 ^ l.length := by
  have := beValue_foldl_lt l 0 hb
  simpa [beValue] using this

theorem beValue_dropZeros : ∀ l : List Nat, beValue l = beValue (l.dropWhile (fun b => b == 0)) := by
  intro l
  induction l with
  | nil => rfl
  | cons b t ih =>
    rw [List.dropWhile_cons]
    by_cases hb : b = 0
    · subst hb
      simpa [beValue, List.foldl] using ih
    · simp [hb]

theorem encode_32_length_le (bytes : List Nat) (h32 : bytes.length = 32)
    (hb : ∀ b ∈ bytes, b < 256) : (encode_32 bytes).length ≤ 44 := by
  have hz : leadZeroCount bytes ≤ 32 := by
    have := (List.takeWhile_sublist (l := bytes) (fun b => b == 0)).length_le
    unfold leadZeroCount
    omega
  have hdroplen : (bytes.dropWhile (fun b => b == 0)).length = 32 - leadZeroCount bytes := by
    have := congrArg List.length (List.takeWhile_append_dropWhile (fun b => b == 0) bytes)
    simp only [List.length_append] at this
    unfold leadZeroCount
    omega
  have hdropmem : ∀ b ∈ bytes.dropWhile (fun b => b == 0), b < 256 := by
    intro b hmem
    exact hb b ((List.dropWhile_sublist _).mem hmem)
  have hv : beValue bytes < 256 ^ (32 - leadZeroCount bytes) := by
    rw [beValue_dropZeros, ← hdroplen]
    exact beValue_lt _ hdropmem
  have hpow : ∀ z, z < 33 → 256 ^ (32 - z) ≤ 58 ^ (44 - z) := by decide
  have hv58 : beValue bytes < 58 ^ (44 - leadZeroCount bytes) :=
    lt_of_lt_of_le hv (hpow _ (by omega))
  have hdig : (b58Digits (beValue bytes)).length ≤ 44 - leadZeroCount bytes :=
    b58DigitsF_length_le _ _ _ (le_refl _) hv58
  simp only [encode_32, List.length_append, List.length_replicate, List.length_map,
    List.length_reverse]
  omega

/-! ## Helper lemmas: log line shape -/

theorem b58Char_ne_ten (d : Nat) : b58Char d ≠ 10 := by
  rcases Nat.lt_or_ge d 58 with hd | hd
  · have h : ∀ e, e < 58 → b58Alphabet.getD e 49 ≠ 10 := by decide
    exact h d hd
  · have hlen : b58Alphabet.length ≤ d := by
      have : b58Alphabet.length = 58 := by decide
      omega
    rw [b58Char, List.getD_eq_default _ _ hlen]
    omega

theorem encode_32_no_newline (key : List Nat) : 10 ∉ encode_32 key := by
  intro hmem
  rw [encode_32, List.mem_append] at hmem
  rcases hmem with hmem | hmem
  · have := (List.mem_replicate.mp hmem).2
    omega
  · obtain ⟨d, _, hd⟩ := List.mem_map.mp hmem
    exact b58Char_ne_ten d hd

theorem decimalBytes_no_newline (n : Nat) : 10 ∉ decimalBytes n := by
  intro hmem
  unfold decimalBytes at hmem
  by_cases hn : n = 0
  · simp [hn] at hmem
  · rw [if_neg hn] at hmem
    obtain ⟨d, _, hd⟩ := List.mem_map.mp hmem
    omega

theorem resultLine_single_newline (key : List Nat) (n : Nat) :
    (resultLine key n).count 10 = 1 := by
  unfold resultLine
  rw [List.count_append, List.count_append, List.count_append]
  have h1 : (encode_32 key).count 10 = 0 := List.count_eq_zero.mpr (encode_32_no_newline key)
  have h2 : List.count 10 ([58, 32] : List Nat) = 0 := rfl
  have h3 : (decimalBytes n).count 10 = 0 := List.count_eq_zero.mpr (decimalBytes_no_newline n)
  have h4 : List.count 10 ([10] : List Nat) = 1 := rfl
  omega

/-! ## Helper lemmas: the seed-space partition -/

theorem startSeed_gap_core (T i j O : Nat) (hT : 0 < T) (hTM : T < U64_MOD) (hij : i < j)
    (hj : j < T) : U64_MAX / T ≤ wrapDist (startSeedFixed T i O) (startSeedFixed T j O) := by
  have hM : U64_MOD = 18446744073709551616 := rfl
  have hX : U64_MAX = 18446744073709551615 := rfl
  have hq1 : 1 ≤ U64_MAX / T := (Nat.one_le_div_iff hT).mpr (by omega)
  have hqT : U64_MAX / T * T ≤ U64_MAX := Nat.div_mul_le_self _ _
  have hsplit : U64_MAX / T * j = U64_MAX / T * i + U64_MAX / T * (j - i) := by
    rw [← Nat.mul_add]
    congr 1
    omega
  have hlo : U64_MAX / T ≤ U64_MAX / T * (j - i) := Nat.le_mul_of_pos_right _ (by omega)
  have hhi : U64_MAX / T * (j - i) + U64_MAX / T ≤ U64_MAX := by
    have h1 : U64_MAX / T * (j - i) + U64_MAX / T = U64_MAX / T * (j - i + 1) := by ring
    have h2 : U64_MAX / T * (j - i + 1) ≤ U64_MAX / T * T := Nat.mul_le_mul_left _ (by omega)
    omega
  unfold startSeedFixed wrapDist
  rw [hsplit]
  generalize U64_MAX / T * i = a at *
  generalize hc : U64_MAX / T * (j - i) = c at *
  rw [hM] at *
  omega

/-! ## More scan helpers -/

theorem canonicalScan_offset0 (onCurve : List Nat → Bool) (owner : List Nat) (s : Nat)
    (h : onCurve (candidateDigest owner s 0) = false) :
    (canonicalScan onCurve owner s).2 = some 0 := by
  have he : (canonicalScan onCurve owner s).2 =
      (scanFrom (fun o => !onCurve (candidateDigest owner s o)) 0 (254 + 1)).2 := rfl
  rw [he, scanFrom_succ]
  simp [h]

theorem canonicalScan_eq_find (onCurve : List Nat → Bool) (owner : List Nat) (s : Nat) :
    (canonicalScan onCurve owner s).2 =
      (List.range 255).find? (fun o => !onCurve (candidateDigest owner s o)) := by
  rw [List.range_eq_range']
  exact scanFrom_eq_find _ 255 0

/-- The empty target matches every text. -/
theorem matchesTarget_nil (x : List Nat) : matchesTarget x [] = true := by
  cases x <;> rfl

/-! ## Claim C4 -/

/-- C4: for every owner key, seed, and bump offset, the candidate digest equals the
SHA-256 hash of the 62-byte preimage laid out as the seed in 8 little-endian bytes at
offset 0, the single bump byte 255 - o at offset 8, the 32-byte owner key at offset 9,
and the 21-byte marker ProgramDerivedAddress at offset 41; the digest is a pure
function of this preimage. -/
theorem C4_preimage_layout (owner : List Nat) (s o : Nat) (h : owner.length = 32) :
    candidate_preimage owner s o = u64le s ++ [255 - o] ++ owner ++ PDA_MARKER ∧
    (candidate_preimage owner s o).length = 62 ∧
    candidateDigest owner s o = sha256 (u64le s ++ [255 - o] ++ owner ++ PDA_MARKER) :=
  ⟨candidate_preimage_eq owner s o h, candidate_preimage_len owner s o h,
   by rw [candidateDigest, candidate_preimage_eq owner s o h]⟩

/-- Witness for C4 at a concrete owner, seed and bump offset. -/
theorem C4_witness :
    (List.replicate 32 (0:Nat)).length = 32 ∧
    candidate_preimage (List.replicate 32 0) 1 0 =
      u64le 1 ++ [255 - 0] ++ List.replicate 32 0 ++ PDA_MARKER :=
  ⟨by decide, (C4_preimage_layout (List.replicate 32 0) 1 0 (by decide)).1⟩

/-! ## Claim C2 -/

set_option maxRecDepth 100000 in
/-- C2 (counterexample): the log-persisting binary's per-seed selector does not iterate
bump offsets up to 254: under a concrete oracle whose first off-curve offset is 1 (bump
254) — so the canonical scan finds some 1 — the per-seed step with the empty target,
which every encoding matches, reports nothing and performs exactly one off-curve test,
never evaluating offset 1. -/
theorem C2_counterexample :
    (canonicalScan (fun d => d == candidateDigest (List.replicate 32 0) 1 0)
        (List.replicate 32 0) 1).2 = some 1 ∧
    (fixedSeedStep (fun d => d == candidateDigest (List.replicate 32 0) 1 0) []
        (List.replicate 32 0) 1).1 = none ∧
    (fixedSeedStep (fun d => d == candidateDigest (List.replicate 32 0) 1 0) []
        (List.replicate 32 0) 1).2 = 1 := by
  refine ⟨by decide, ?_, ?_⟩
  all_goals
    have hfc : fixedCandidates [] (List.replicate 32 0) 1 =
        [(candidateDigest (List.replicate 32 0) 1 0,
          matchesTarget (encode_32 (candidateDigest (List.replicate 32 0) 1 0)) [])] := rfl
    unfold fixedSeedStep
    rw [hfc, matchesTarget_nil]
    simp [confirmLoop]

/-- C2 (amended): the print-only binary's bump selector iterates offsets 0, 1, 2, ...
up to 254 (bump byte descending from 255), computing and testing the digest at each
offset; it stops at the first off-curve offset, having evaluated exactly the offsets
0..o; when no offset of the 255-value range is off-curve the seed is reported as no
match, without error, and the batch continues with the remaining seeds.  The
log-persisting binary instead scans only the look-ahead window of 1 offset: its
candidate list is exactly the offset-0 (bump 255) candidate, it performs at most one
off-curve test per seed, and it reports nothing for a seed whose bump-255 digest is
on-curve, even when a lower bump is off-curve. -/
theorem C2_bump_scan (onCurve : List Nat → Bool) (owner : List Nat) (s : Nat) :
    (∀ o, (canonicalScan onCurve owner s).2 = some o →
       o ≤ 254 ∧ onCurve (candidateDigest owner s o) = false ∧
       (∀ m, m < o → onCurve (candidateDigest owner s m) = true) ∧
       (canonicalScan onCurve owner s).1 = List.range (o + 1)) ∧
    ((canonicalScan onCurve owner s).2 = none →
       (canonicalScan onCurve owner s).1 = List.range 255 ∧
       (∀ tgt, allSeedStep onCurve tgt owner s = none) ∧
       (∀ tgt rest, grindBatch onCurve tgt owner (s :: rest) = grindBatch onCurve tgt owner rest)) ∧
    (∀ tgt, fixedCandidates tgt owner s =
       [(candidateDigest owner s 0,
         matchesTarget (encode_32 (candidateDigest owner s 0)) tgt)]) ∧
    (∀ tgt, (fixedSeedStep onCurve tgt owner s).2 ≤ LOOK_AHEAD_WINDOW) ∧
    (onCurve (candidateDigest owner s 0) = true →
       ∀ tgt, (fixedSeedStep onCurve tgt owner s).1 = none) := by
  have hcs : canonicalScan onCurve owner s =
      scanFrom (fun o => !onCurve (candidateDigest owner s o)) 0 255 := rfl
  have hfc : ∀ tgt, fixedCandidates tgt owner s =
      [(candidateDigest owner s 0,
        matchesTarget (encode_32 (candidateDigest owner s 0)) tgt)] := fun tgt => rfl
  refine ⟨?_, ?_, hfc, ?_, ?_⟩
  · intro o hso
    obtain ⟨h0, hlt, hoff, hmin, htr⟩ := scanFrom_some _ 255 0 o hso
    refine ⟨by omega, by simpa using hoff, ?_, ?_⟩
    · intro m hm
      have := hmin m (Nat.zero_le m) hm
      simpa using this
    · rw [hcs, htr, ← List.range_eq_range']
      simp
  · intro hnone
    obtain ⟨htr, _⟩ := scanFrom_none _ 255 0 hnone
    refine ⟨by rw [hcs, htr, ← List.range_eq_range'], ?_, ?_⟩
    · intro tgt
      simp [allSeedStep, hnone]
    · intro tgt rest
      simp [grindBatch, allSeedStep, hnone]
  · intro tgt
    unfold fixedSeedStep
    rw [hfc tgt]
    cases hm : matchesTarget (encode_32 (candidateDigest owner s 0)) tgt <;>
      cases hc : onCurve (candidateDigest owner s 0) <;>
        simp [confirmLoop, hm, hc, LOOK_AHEAD_WINDOW]
  · intro hc tgt
    unfold fixedSeedStep
    rw [hfc tgt]
    cases hm : matchesTarget (encode_32 (candidateDigest owner s 0)) tgt <;>
      simp [confirmLoop, hm, hc]

set_option maxRecDepth 100000 in
/-- Witness for C2: an always-off-curve oracle stops at offset 0 having evaluated only
offset 0; an always-on-curve oracle exhausts the range, skips the seed, and in the
log-persisting binary reports nothing. -/
theorem C2_witness :
    (canonicalScan (fun _ => false) [] 0).1 = List.range (0 + 1) ∧
    allSeedStep (fun _ => true) [] [] 0 = none ∧
    (fixedSeedStep (fun _ => true) [] [] 0).1 = none := by
  refine ⟨?_, ?_, ?_⟩
  · exact ((C2_bump_scan (fun _ => false) [] 0).1 0 rfl).2.2.2
  · exact ((C2_bump_scan (fun _ => true) [] 0).2.1 rfl).2.1 []
  · exact (C2_bump_scan (fun _ => true) [] 0).2.2.2.2 rfl []

/-! ## Claim C3 -/

/-- C3: a match is never reported for a digest other than the canonical (first
off-curve in descending-bump order) digest of its seed, in either binary: whenever a
digest is reported, it is the canonical digest. -/
theorem C3_only_canonical (onCurve : List Nat → Bool) (tgt owner : List Nat) (s : Nat)
    (d : List Nat) :
    (allSeedStep onCurve tgt owner s = some d → canonicalDigest onCurve owner s = some d) ∧
    ((fixedSeedStep onCurve tgt owner s).1 = some d → canonicalDigest onCurve owner s = some d) := by
  constructor
  · intro h
    unfold allSeedStep at h
    cases hscan : (canonicalScan onCurve owner s).2 with
    | none => rw [hscan] at h; simp at h
    | some o =>
      rw [hscan] at h
      by_cases hm : matchesTarget (encode_32 (candidateDigest owner s o)) tgt
      · simp only [hm, if_true] at h
        rw [canonicalDigest, hscan, Option.map_some']
        exact h
      · simp only [hm, if_false] at h
        exact absurd h (by simp)
  · intro h
    have hfc : fixedCandidates tgt owner s =
        [(candidateDigest owner s 0,
          matchesTarget (encode_32 (candidateDigest owner s 0)) tgt)] := rfl
    unfold fixedSeedStep at h
    rw [hfc] at h
    by_cases hm : matchesTarget (encode_32 (candidateDigest owner s 0)) tgt
    · simp only [hm, List.any_cons, List.any_nil, Bool.or_false, if_true] at h
      unfold confirmLoop at h
      by_cases hc : onCurve (candidateDigest owner s 0)
      · simp [hc, confirmLoop] at h
      · simp only [hc, Bool.not_false, if_true, hm] at h
        have hd : d = candidateDigest owner s 0 := by
          cases h; rfl
        rw [canonicalDigest, canonicalScan_offset0 onCurve owner s (by simpa using hc),
          Option.map_some', hd]
    · simp [hm] at h
  
set_option maxRecDepth 100000 in
/-- Witness for C3: with an always-off-curve oracle and the empty target, the reported
digest is the canonical one. -/
theorem C3_witness :
    canonicalDigest (fun _ => false) [] 5 = some (candidateDigest [] 5 0) :=
  (C3_only_canonical (fun _ => false) [] [] 5 (candidateDigest [] 5 0)).1 rfl

/-! ## Claim C5 -/

/-- C5: the canonical digest of the grind worker's bump-selector loop coincides with
the platform derivation the check command prints, for every owner key and seed — in
particular they agree whenever a canonical address exists. -/
theorem C5_matches_platform (onCurve : List Nat → Bool) (owner : List Nat) (s : Nat)
    (h : owner.length = 32) :
    canonicalDigest onCurve owner s = find_program_address onCurve owner s := by
  have hdig : ∀ o : Nat, candidateDigest owner s o = pdaDigest owner s (255 - o) := by
    intro o
    rw [candidateDigest, candidate_preimage_eq owner s o h, pdaDigest]
  unfold canonicalDigest find_program_address descendingBumps
  rw [canonicalScan_eq_find, List.find?_map, Option.map_map]
  have hfun : ((fun b => !onCurve (pdaDigest owner s b)) ∘ (fun o : Nat => 255 - o)) =
      (fun o => !onCurve (candidateDigest owner s o)) := by
    funext o
    simp [Function.comp, hdig o]
  have hfun2 : (pdaDigest owner s ∘ (fun o : Nat => 255 - o)) = candidateDigest owner s := by
    funext o
    simp [Function.comp, hdig o]
  rw [hfun, hfun2]

/-- Witness for C5 at a concrete owner and seed with an off-curve digest present. -/
theorem C5_witness :
    (List.replicate 32 (0:Nat)).length = 32 ∧
    canonicalDigest (fun _ => false) (List.replicate 32 0) 3 =
      find_program_address (fun _ => false) (List.replicate 32 0) 3 :=
  ⟨by decide, C5_matches_platform (fun _ => false) (List.replicate 32 0) 3 (by decide)⟩

/-! ## Claim C1 -/

/-- C1 (counterexample): for two threads, worker 1's starting seed is
floor((2^64 - 1)/2) * 1 + O, not floor(2^64 / 2) * 1 + O as claimed — the two
differ by one exactly when the thread count divides 2^64. -/
theorem C1_counterexample : startSeedFixed 2 1 0 ≠ (2 ^ 64 / 2 * 1 + 0) % 2 ^ 64 := by decide

/-- C1 (amended): worker i's starting seed in the thread-divisor binary is
(u64::MAX / T) * i + O wrapping, i.e. floor((2^64 - 1)/T) * i + O; this agrees with the
claimed floor(2^64 / T) * i + O whenever T does not divide 2^64.  The print-only binary
divides by the constant 32 instead of the thread count. -/
theorem C1_start_seed (T i O : Nat) (_hT : 0 < T) (hnd : 2 ^ 64 % T ≠ 0) :
    startSeedFixed T i O = (2 ^ 64 / T * i + O) % 2 ^ 64 ∧
    startSeedFixed T i O = ((2 ^ 64 - 1) / T * i + O) % 2 ^ 64 ∧
    startSeedAll i O = ((2 ^ 64 - 1) / 32 * i + O) % 2 ^ 64 := by
  have hmax : U64_MAX = 2 ^ 64 - 1 := by norm_num [U64_MAX]
  have hmod : U64_MOD = 2 ^ 64 := by norm_num [U64_MOD]
  have hdiv : (2 ^ 64 - 1) / T = 2 ^ 64 / T := by
    have hsd := Nat.succ_div (2 ^ 64 - 1) T
    have h2 : 2 ^ 64 - 1 + 1 = 2 ^ 64 := by norm_num
    rw [h2] at hsd
    rw [hsd, if_neg, Nat.add_zero]
    intro hd
    exact hnd (Nat.mod_eq_zero_of_dvd hd)
  refine ⟨?_, ?_, ?_⟩
  · unfold startSeedFixed
    rw [hmax, hmod, hdiv, Nat.mod_add_mod]
  · unfold startSeedFixed
    rw [hmax, hmod, Nat.mod_add_mod]
  · unfold startSeedAll
    rw [hmax, hmod, Nat.mod_add_mod]

/-- Witness for C1 at a thread count that does not divide 2^64. -/
theorem C1_witness :
    0 < 3 ∧ 2 ^ 64 % 3 ≠ 0 ∧ startSeedFixed 3 2 5 = (2 ^ 64 / 3 * 2 + 5) % 2 ^ 64 :=
  ⟨by norm_num, by decide, (C1_start_seed 3 2 5 (by norm_num) (by decide)).1⟩

/-! ## Claim C8 -/

theorem wrapDist_comm (a b : Nat) : wrapDist a b = wrapDist b a := by
  unfold wrapDist
  exact Nat.min_comm _ _

/-- C8 (counterexample): for T = 2 the two starting seeds differ by
2^63 - 1 < floor(2^64 / 2), so the claimed bound fails at powers of two. -/
theorem C8_counterexample :
    wrapDist (startSeedFixed 2 0 0) (startSeedFixed 2 1 0) < 2 ^ 64 / 2 := by decide

/-- C8 (amended): for every thread count T (a u64) and distinct worker indices below T,
the starting seeds differ, modulo 2^64 wraparound, by at least floor((2^64 - 1)/T) —
the code's actual partition width u64::MAX / T, one less than the claimed floor(2^64/T)
when T divides 2^64. -/
theorem C8_partition_gap (T i j O : Nat) (hT : 0 < T) (hTM : T < 2 ^ 64) (hi : i < T)
    (hj : j < T) (hij : i ≠ j) :
    (2 ^ 64 - 1) / T ≤ wrapDist (startSeedFixed T i O) (startSeedFixed T j O) := by
  have hmax : (2:Nat) ^ 64 - 1 = U64_MAX := by norm_num [U64_MAX]
  have hmod : (2:Nat) ^ 64 = U64_MOD := by norm_num [U64_MOD]
  rw [hmax]
  rcases Nat.lt_or_ge i j with hlt | hge
  · exact startSeed_gap_core T i j O hT (by rw [← hmod]; exact hTM) hlt hj
  · have hlt : j < i := by omega
    have hc := startSeed_gap_core T j i O hT (by rw [← hmod]; exact hTM) hlt hi
    rwa [wrapDist_comm] at hc

/-- Witness for C8 at T = 2, i = 0, j = 1. -/
theorem C8_witness :
    0 < 2 ∧ (2:Nat) < 2 ^ 64 ∧ 0 < 2 ∧ 1 < 2 ∧ (0:Nat) ≠ 1 ∧
    (2 ^ 64 - 1) / 2 ≤ wrapDist (startSeedFixed 2 0 7) (startSeedFixed 2 1 7) :=
  ⟨by norm_num, by norm_num, by norm_num, by norm_num, by norm_num,
   C8_partition_gap 2 0 1 7 (by norm_num) (by norm_num) (by norm_num) (by norm_num)
     (by norm_num)⟩

/-! ## Claim C6 -/

/-- C6: matches(text, p) is true iff text starts with p under exact byte comparison
with no validation of p; matches(text, "") is true for every text; and for every
encoded 32-byte digest, matches is false whenever p is longer than 44, the maximum
possible encoded length. -/
theorem C6_matches (t p bytes : List Nat) :
    (matchesTarget t p = true ↔ p <+: t) ∧
    matchesTarget t [] = true ∧
    (bytes.length = 32 → (∀ b ∈ bytes, b < 256) → 44 < p.length →
      matchesTarget (encode_32 bytes) p = false) := by
  refine ⟨List.isPrefixOf_iff_prefix, matchesTarget_nil t, ?_⟩
  intro h32 hb hp
  cases hmt : matchesTarget (encode_32 bytes) p with
  | false => rfl
  | true =>
    have hpre : p <+: encode_32 bytes := List.isPrefixOf_iff_prefix.mp hmt
    have h1 := hpre.length_le
    have h2 := encode_32_length_le bytes h32 hb
    omega

/-- Witness for C6: a 45-character target never matches a 32-byte digest encoding. -/
theorem C6_witness :
    (List.replicate 32 (0:Nat)).length = 32 ∧
    (∀ b ∈ List.replicate 32 (0:Nat), b < 256) ∧
    44 < (List.replicate 45 (49:Nat)).length ∧
    matchesTarget (encode_32 (List.replicate 32 0)) (List.replicate 45 49) = false :=
  ⟨by decide, by decide, by decide,
   (C6_matches [] (List.replicate 45 49) (List.replicate 32 0)).2.2 (by decide) (by decide)
     (by decide)⟩

/-! ## Claim C7 -/

set_option maxRecDepth 100000 in
/-- C7 (counterexample): with an oracle under which every digest is on-curve, neither
binary reports a match on the first seed processed (offset 0, so seed 1), refuting the
unconditional claim that an empty target always matches the very first seed. -/
theorem C7_counterexample :
    allSeedStep (fun _ => true) [] (List.replicate 32 0) 1 = none ∧
    (fixedSeedStep (fun _ => true) [] (List.replicate 32 0) 1).1 = none := by
  constructor
  · have hnone : (canonicalScan (fun _ => true) (List.replicate 32 0) 1).2 = none := rfl
    unfold allSeedStep
    rw [hnone]
  · have hfc : fixedCandidates [] (List.replicate 32 0) 1 =
        [(candidateDigest (List.replicate 32 0) 1 0,
          matchesTarget (encode_32 (candidateDigest (List.replicate 32 0) 1 0)) [])] := rfl
    unfold fixedSeedStep
    rw [hfc, matchesTarget_nil]
    simp [confirmLoop]

/-- C7 (amended): with one thread the first seed processed is the random offset plus
one (wrapping); with the empty target a match is reported for it iff that seed admits a
canonical (off-curve) bump — and in the log-persisting binary iff its bump-255 digest
itself is off-curve. -/
theorem C7_empty_target (onCurve : List Nat → Bool) (owner : List Nat) (O : Nat) :
    firstSeed (startSeedFixed 1 0 O) = (O + 1) % 2 ^ 64 ∧
    firstSeed (startSeedAll 0 O) = (O + 1) % 2 ^ 64 ∧
    (∀ s, (allSeedStep onCurve [] owner s).isSome =
      ((canonicalScan onCurve owner s).2).isSome) ∧
    (∀ s, (fixedSeedStep onCurve [] owner s).1.isSome =
      !onCurve (candidateDigest owner s 0)) := by
  have hmod : U64_MOD = 2 ^ 64 := by norm_num [U64_MOD]
  refine ⟨?_, ?_, ?_, ?_⟩
  · unfold firstSeed startSeedFixed
    rw [hmod]
    norm_num
  · unfold firstSeed startSeedAll
    rw [hmod]
    norm_num
  · intro s
    cases hscan : (canonicalScan onCurve owner s).2 with
    | none => simp [allSeedStep, hscan]
    | some o => simp [allSeedStep, hscan, matchesTarget_nil]
  · intro s
    have hfc : fixedCandidates [] owner s =
        [(candidateDigest owner s 0,
          matchesTarget (encode_32 (candidateDigest owner s 0)) [])] := rfl
    unfold fixedSeedStep
    rw [hfc, matchesTarget_nil]
    cases hc : onCurve (candidateDigest owner s 0) <;> simp [confirmLoop, hc]

/-! ## Claim C9 -/

/-- C9: on a confirmed match with a writable log, add_seed appends exactly one line,
of the shape base-58 address, colon, space, decimal seed, newline — a complete line
with a single terminating newline, appended atomically as one state transition (the
sequential model of the exclusive lock); when the write fails, the result is the
propagated fatal error, the log is not extended, and nothing is retried or buffered. -/
theorem C9_add_seed (log : List (List Nat)) (key : List Nat) (s : Nat) :
    add_seed true log key s = Except.ok (log ++ [resultLine key s]) ∧
    resultLine key s = encode_32 key ++ [58, 32] ++ decimalBytes s ++ [10] ∧
    (resultLine key s).count 10 = 1 ∧
    add_seed false log key s = Except.error () :=
  ⟨rfl, rfl, resultLine_single_newline key s, rfl⟩

/-! ## Claim C10 -/

/-- C10: in the log-persisting binary the look-ahead window is 1, so exactly one
candidate is generated per seed — the bump byte 255 one; a match is reported iff that
digest's encoding starts with the target and the digest is off-curve; a seed whose
first off-curve bump lies strictly below 255 never produces a match; and when the
bump-255 encoding does not start with the target no off-curve test runs at all. -/
theorem C10_window_one (onCurve : List Nat → Bool) (tgt owner : List Nat) (s : Nat)
    (h : owner.length = 32) :
    fixedCandidates tgt owner s =
      [(candidateDigest owner s 0, matchesTarget (encode_32 (candidateDigest owner s 0)) tgt)] ∧
    candidate_preimage owner s 0 = u64le s ++ [255] ++ owner ++ PDA_MARKER ∧
    ((fixedSeedStep onCurve tgt owner s).1.isSome =
      (matchesTarget (encode_32 (candidateDigest owner s 0)) tgt &&
        !onCurve (candidateDigest owner s 0))) ∧
    (∀ o, (canonicalScan onCurve owner s).2 = some o → 0 < o →
      (fixedSeedStep onCurve tgt owner s).1 = none) ∧
    (matchesTarget (encode_32 (candidateDigest owner s 0)) tgt = false →
      fixedSeedStep onCurve tgt owner s = (none, 0)) := by
  have hfc : fixedCandidates tgt owner s =
      [(candidateDigest owner s 0,
        matchesTarget (encode_32 (candidateDigest owner s 0)) tgt)] := rfl
  refine ⟨hfc, ?_, ?_, ?_, ?_⟩
  · have := candidate_preimage_eq owner s 0 h
    simpa using this
  · unfold fixedSeedStep
    rw [hfc]
    cases hm : matchesTarget (encode_32 (candidateDigest owner s 0)) tgt <;>
      cases hc : onCurve (candidateDigest owner s 0) <;> simp [confirmLoop, hc]
  · intro o hso ho
    obtain ⟨_, _, _, hmin, _⟩ := scanFrom_some _ 255 0 o hso
    have hc : onCurve (candidateDigest owner s 0) = true := by
      have := hmin 0 (Nat.le_refl 0) ho
      simpa using this
    unfold fixedSeedStep
    rw [hfc]
    cases hm : matchesTarget (encode_32 (candidateDigest owner s 0)) tgt <;>
      simp [confirmLoop, hc]
  · intro hm
    unfold fixedSeedStep
    rw [hfc, hm]
    simp

set_option maxRecDepth 100000 in
/-- Witness for C10: a concrete oracle under which bump 255 is on-curve and bump 254 is
off-curve (the canonical offset is 1), and a target the bump-255 encoding does not
start with: the log-persisting worker reports nothing and runs no off-curve test. -/
theorem C10_witness :
    (List.replicate 32 (0:Nat)).length = 32 ∧
    (canonicalScan (fun d => d == candidateDigest (List.replicate 32 0) 1 0)
        (List.replicate 32 0) 1).2 = some 1 ∧
    (fixedSeedStep (fun d => d == candidateDigest (List.replicate 32 0) 1 0) [50]
        (List.replicate 32 0) 1).1 = none ∧
    matchesTarget (encode_32 (candidateDigest (List.replicate 32 0) 1 0)) [50] = false ∧
    fixedSeedStep (fun d => d == candidateDigest (List.replicate 32 0) 1 0) [50]
        (List.replicate 32 0) 1 = (none, 0) := by
  have h := C10_window_one (fun d => d == candidateDigest (List.replicate 32 0) 1 0) [50]
    (List.replicate 32 0) 1 (by decide)
  have hscan : (canonicalScan (fun d => d == candidateDigest (List.replicate 32 0) 1 0)
      (List.replicate 32 0) 1).2 = some 1 := by decide
  have hm : matchesTarget (encode_32 (candidateDigest (List.replicate 32 0) 1 0)) [50]
      = false := by decide
  exact ⟨by decide, hscan, h.2.2.2.1 1 hscan (by decide), hm, h.2.2.2.2 hm⟩

/-! ## Sanity anchors for the modelled external functions -/

/-- The FIPS 180-4 test vector: SHA-256 of the three bytes abc. -/
theorem sha256_abc_vector :
    sha256 [97, 98, 99] =
      [0xba, 0x78, 0x16, 0xbf, 0x8f, 0x01, 0xcf, 0xea, 0x41, 0x41, 0x40, 0xde,
       0x5d, 0xae, 0x22, 0x23, 0xb0, 0x03, 0x61, 0xa3, 0x96, 0x17, 0x7a, 0x9c,
       0xb4, 0x10, 0xff, 0x61, 0xf2, 0x00, 0x15, 0xad] := by decide

/-- The all-zero 32-byte digest encodes as 32 alphabet-1 characters. -/
theorem encode_32_zero_vector :
    encode_32 (List.replicate 32 0) = List.replicate 32 49 := by decide
